import Mathlib

/-!
Shallow embedding of `src/app.py` (class `AILearningAssistant`).

Python strings are modelled as `List Char` (`Str`).  `str.split()` is
`pySplit` (split on whitespace runs, discarding empty pieces), `sep.join`
is `pyJoin sep`, slicing `w[:k]` / `w[k:]` is `List.take` / `List.drop`.
The external model call is an oracle `Str → Except Unit Str`; an
`Except.error` models a raised exception, caught by the surrounding
`try/except` of each pipeline function.  Stateful effects that do not
influence the returned values (`st.error` reporting, `time.sleep`) are
either dropped or recorded as booleans where a claim mentions them.
-/

abbrev Str := List Char

/-- Python's whitespace test, as used by `str.split()` (modelled with
`Char.isWhitespace`, which covers space, tab, carriage return, newline). -/
def isSpace (c : Char) : Bool := c.isWhitespace

/-- Accumulator loop for Python `text.split()`: `acc` holds the current
word in progress, reversed; a whitespace character flushes it. -/
def splitAux : Str → Str → List Str
  | [], acc => if acc = [] then [] else [acc.reverse]
  | c :: cs, acc =>
    if isSpace c then
      if acc = [] then splitAux cs [] else acc.reverse :: splitAux cs []
    else splitAux cs (c :: acc)

/-- Python `text.split()` (no argument): split on runs of whitespace,
never producing empty words. -/
def pySplit (s : Str) : List Str := splitAux s []

/-- Python `sep.join(xs)`. -/
def pyJoin (sep : Str) : List Str → Str
  | [] => []
  | [x] => x
  | x :: y :: ys => x ++ sep ++ pyJoin sep (y :: ys)

/-- The word loop of `AILearningAssistant.chunk_text` (src/app.py lines
480-494), emitting chunks in order.  `cur` is `current_chunk`, `n` is
`current_length`; `current_chunk.append(word)` is `cur ++ [w]`; the
Python `word_length = len(word) + 1` appears as `w.length + 1`. -/
def chunkLoop (maxc : Nat) : List Str → List Str → Nat → List Str
  | [], cur, _ => if cur = [] then [] else [pyJoin [' '] cur]
  | w :: ws, cur, n =>
    if n + (w.length + 1) > maxc then
      if cur ≠ [] then
        pyJoin [' '] cur :: chunkLoop maxc ws [w] (w.length + 1)
      else
        if w.length > maxc then
          w.take maxc :: chunkLoop maxc ws [w.drop maxc] (w.drop maxc).length
        else
          w.take maxc :: chunkLoop maxc ws [] 0
    else chunkLoop maxc ws (cur ++ [w]) (n + (w.length + 1))

/-- Model of `AILearningAssistant.chunk_text` (src/app.py lines 470-499).  The
source gives `max_chars` the default value 30000; here the bound is an
explicit argument and callers of the source's default pass `CHUNK_MAX`. -/
def chunk_text (text : Str) (max_chars : Nat) : List Str :=
  if text.length ≤ max_chars then [text]
  else chunkLoop max_chars (pySplit text) [] 0

/-- The default chunk bound of `chunk_text` in the source. -/
def CHUNK_MAX : Nat := 30000

theorem splitAux_append_space (t : Str) :
    ∀ (s acc : Str), splitAux (s ++ ' ' :: t) acc = splitAux s acc ++ splitAux t []
  | [], acc => by
    by_cases h : acc = [] <;>
      simp [splitAux, isSpace, h]
  | c :: cs, acc => by
    by_cases h : isSpace c = true
    · by_cases ha : acc = [] <;>
        simp [splitAux, h, ha, splitAux_append_space t cs []]
    · simp [splitAux, h, splitAux_append_space t cs (c :: acc)]

theorem pySplit_append_space (s t : Str) :
    pySplit (s ++ ' ' :: t) = pySplit s ++ pySplit t :=
  splitAux_append_space t s []

theorem splitAux_nonspace :
    ∀ (s acc : Str), (∀ c ∈ s, isSpace c = false) →
      splitAux s acc = if acc.reverse ++ s = [] then [] else [acc.reverse ++ s]
  | [], acc, _ => by
    by_cases h : acc = [] <;> simp [splitAux, h]
  | c :: cs, acc, hns => by
    have hc : ¬ isSpace c = true := by simp [hns c (by simp)]
    rw [splitAux, if_neg hc]
    rw [splitAux_nonspace cs (c :: acc) (fun d hd => hns d (by simp [hd]))]
    simp

theorem pySplit_single (w : Str) (hne : w ≠ [])
    (hns : ∀ c ∈ w, isSpace c = false) : pySplit w = [w] := by
  rw [pySplit, splitAux_nonspace w [] hns]
  simp [hne]

theorem splitAux_words :
    ∀ (s acc : Str), (∀ c ∈ acc, isSpace c = false) →
      ∀ w ∈ splitAux s acc, w ≠ [] ∧ ∀ c ∈ w, isSpace c = false
  | [], acc, hacc => by
    by_cases h : acc = []
    · simp [splitAux, h]
    · intro w hw
      rw [splitAux, if_neg h] at hw
      rcases List.mem_singleton.mp hw with rfl
      refine ⟨by simpa using h, ?_⟩
      intro c hc
      exact hacc c (List.mem_reverse.mp hc)
  | c :: cs, acc, hacc => by
    by_cases h : isSpace c = true
    · by_cases ha : acc = []
      · rw [splitAux, if_pos h, if_pos ha]
        exact splitAux_words cs [] (by simp)
      · intro w hw
        rw [splitAux, if_pos h, if_neg ha] at hw
        rcases List.mem_cons.mp hw with rfl | hw
        · refine ⟨by simpa using ha, ?_⟩
          intro d hd
          exact hacc d (List.mem_reverse.mp hd)
        · exact splitAux_words cs [] (by simp) w hw
    · rw [splitAux, if_neg h]
      refine splitAux_words cs (c :: acc) ?_
      intro d hd
      rcases List.mem_cons.mp hd with rfl | hd
      · simpa using h
      · exact hacc d hd

theorem pySplit_words (s : Str) :
    ∀ w ∈ pySplit s, w ≠ [] ∧ ∀ c ∈ w, isSpace c = false :=
  splitAux_words s [] (by simp)

theorem pySplit_all_space :
    ∀ s : Str, (∀ c ∈ s, isSpace c = true) → pySplit s = []
  | [], _ => rfl
  | c :: cs, h => by
    have hc : isSpace c = true := h c (by simp)
    rw [pySplit, splitAux, if_pos hc, if_pos rfl]
    exact pySplit_all_space cs (fun d hd => h d (by simp [hd]))

theorem pySplit_pyJoin_map :
    ∀ cs : List Str, pySplit (pyJoin [' '] cs) = (cs.map pySplit).flatten
  | [] => rfl
  | [x] => by simp [pyJoin]
  | x :: y :: ys => by
    have ih := pySplit_pyJoin_map (y :: ys)
    rw [pyJoin]
    rw [show x ++ [' '] ++ pyJoin [' '] (y :: ys) = x ++ ' ' :: pyJoin [' '] (y :: ys) by simp]
    rw [pySplit_append_space x _, ih]
    simp

theorem pySplit_flatten_map :
    ∀ ws : List Str, (∀ w ∈ ws, w ≠ [] ∧ ∀ c ∈ w, isSpace c = false) →
      (ws.map pySplit).flatten = ws
  | [], _ => rfl
  | w :: ws, h => by
    simp only [List.map_cons, List.flatten_cons]
    rw [pySplit_single w (h w (by simp)).1 (h w (by simp)).2,
      pySplit_flatten_map ws (fun v hv => h v (by simp [hv]))]
    rfl

theorem pySplit_pyJoin (ws : List Str)
    (h : ∀ w ∈ ws, w ≠ [] ∧ ∀ c ∈ w, isSpace c = false) :
    pySplit (pyJoin [' '] ws) = ws := by
  rw [pySplit_pyJoin_map]
  exact pySplit_flatten_map ws h

/-! ### Prompt templates (transcribed from the f-strings in src/app.py) -/

/-- Python `str.capitalize()`: first character upper-cased, rest lowered. -/
def pyCapitalize : Str → Str
  | [] => []
  | c :: cs => c.toUpper :: cs.map Char.toLower

def summaryPromptPre : Str :=
  "\n                Please provide a comprehensive and well-structured summary of the following ".toList

def summaryPromptMid1 : Str :=
  ".\n                \n                Requirements:\n                - Create a clear, concise summary that captures all key points\n                - Use bullet points and headings for better organization\n                - Maintain the logical flow of information\n                - Include important details, concepts, and takeaways\n                - Format using Markdown for better readability\n                \n                ".toList

def summaryPromptMid2 : Str := " content:\n                ".toList

def summaryPromptEnd : Str := "\n                ".toList

/-- The per-chunk summary prompt of `generate_summary` (src/app.py lines
508-520), with `content_type` spliced in twice and the chunk verbatim. -/
def summaryPrompt (ct chunk : Str) : Str :=
  summaryPromptPre ++ ct ++ summaryPromptMid1 ++ pyCapitalize ct
    ++ summaryPromptMid2 ++ chunk ++ summaryPromptEnd

def combinedPromptPre : Str :=
  "\n                Please create a unified, comprehensive summary from these individual summaries:\n                \n                ".toList

def combinedPromptEnd : Str :=
  "\n                \n                Combine them into a single, well-organized summary that eliminates redundancy and maintains all important information.\n                ".toList

/-- The reconciliation prompt of `generate_summary` (src/app.py lines
530-536): the per-chunk summaries appear joined by single spaces. -/
def combinedPrompt (summaries : List Str) : Str :=
  combinedPromptPre ++ pyJoin [' '] summaries ++ combinedPromptEnd

def mcqPromptPre : Str := "\n                Create ".toList

def mcqPromptMid : Str :=
  " multiple-choice questions based on the following content.\n                \n                Requirements:\n                - Each question should test understanding of key concepts\n                - Provide exactly 4 options (A, B, C, D) for each question\n                - Make sure only one option is clearly correct\n                - Include varied difficulty levels\n                - Clearly indicate the correct answer\n                \n                Format each question as:\n                **Question X:** [Question text]\n                A) [Option A]\n                B) [Option B]\n                C) [Option C]\n                D) [Option D]\n                **Correct Answer:** [Letter]\n                \n                Content:\n                ".toList

def mcqPromptEnd : Str := "\n                ".toList

/-- The per-chunk MCQ prompt of `generate_mcqs` (src/app.py lines 556-576),
with `questions_per_chunk` rendered in decimal and the chunk verbatim. -/
def mcqPrompt (q : Nat) (chunk : Str) : Str :=
  mcqPromptPre ++ (toString q).toList ++ mcqPromptMid ++ chunk ++ mcqPromptEnd

def cardPromptPre : Str := "\n                Create ".toList

def cardPromptMid : Str :=
  " flashcards based on the following content.\n                \n                Requirements:\n                - Cover key concepts, definitions, and important facts\n                - Each flashcard should have a clear question/term and comprehensive answer/definition\n                - Make them suitable for studying and memorization\n                - Vary the types (definitions, concepts, facts, processes)\n                \n                Format each flashcard as:\n                **Card X:**\n                **Front:** [Question/Term]\n                **Back:** [Answer/Definition]\n                \n                Content:\n                ".toList

def cardPromptEnd : Str := "\n                ".toList

/-- The per-chunk flashcard prompt of `generate_flashcards` (src/app.py
lines 599-615). -/
def cardPrompt (q : Nat) (chunk : Str) : Str :=
  cardPromptPre ++ (toString q).toList ++ cardPromptMid ++ chunk ++ cardPromptEnd

/-! ### The model-call loop and the three pipeline functions -/

/-- Sequential `self.model.generate_content` calls over a list of prompts.
Returns the responses (or the first raised error) together with the list
of prompts actually attempted, in order: on an error no further call is
made, matching the `try/except` around each pipeline body. -/
def callsLoop (model : Str → Except Unit Str) : List Str → Except Unit (List Str) × List Str
  | [] => (Except.ok [], [])
  | p :: ps =>
    match model p with
    | Except.error e => (Except.error e, [p])
    | Except.ok r =>
      ((callsLoop model ps).1.map (fun rs => r :: rs), p :: (callsLoop model ps).2)

def failSummary : Str := "Failed to generate summary.".toList
def failMCQs : Str := "Failed to generate MCQs.".toList
def failFlashcards : Str := "Failed to generate flashcards.".toList

/-- Model of `AILearningAssistant.generate_summary` (src/app.py lines 501-545).
Returns the produced text together with the prompts sent to the model.
An empty `summaries` list makes the Python `summaries[0]` raise
`IndexError`, caught by the `except` and turned into `failSummary`.
`maxc` is the chunk bound (`30000` in the source, via `chunk_text`'s
default). -/
def generate_summary (model : Str → Except Unit Str) (ct text : Str) (maxc : Nat) :
    Str × List Str :=
  let chunks := chunk_text text maxc
  let ps := chunks.map (summaryPrompt ct)
  match callsLoop model ps with
  | (Except.error _, att) => (failSummary, att)
  | (Except.ok summaries, att) =>
    if 1 < summaries.length then
      match model (combinedPrompt summaries) with
      | Except.error _ => (failSummary, att ++ [combinedPrompt summaries])
      | Except.ok r => (r, att ++ [combinedPrompt summaries])
    else
      match summaries with
      | [] => (failSummary, att)
      | s :: _ => (s, att)

/-- Python `num_questions // len(chunks)`: integer division, raising
`ZeroDivisionError` on a zero divisor. -/
def pyDiv (a b : Nat) : Except Unit Nat :=
  if b = 0 then Except.error () else Except.ok (a / b)

/-- Model of `AILearningAssistant.generate_mcqs` (src/app.py lines 547-588).  A zero
chunk count makes the Python `num_questions // len(chunks)` raise
`ZeroDivisionError`, caught by the `except` and turned into `failMCQs`. -/
def generate_mcqs (model : Str → Except Unit Str) (text : Str) (num_questions maxc : Nat) :
    Str × List Str :=
  let chunks := chunk_text text maxc
  match pyDiv num_questions chunks.length with
  | Except.error _ => (failMCQs, [])
  | Except.ok d =>
    let ps := chunks.map (mcqPrompt (max 1 d))
    match callsLoop model ps with
    | (Except.error _, att) => (failMCQs, att)
    | (Except.ok rs, att) => (pyJoin "\n\n".toList rs, att)

/-- Model of `AILearningAssistant.generate_flashcards` (src/app.py lines 590-627). -/
def generate_flashcards (model : Str → Except Unit Str) (text : Str) (num_cards maxc : Nat) :
    Str × List Str :=
  let chunks := chunk_text text maxc
  match pyDiv num_cards chunks.length with
  | Except.error _ => (failFlashcards, [])
  | Except.ok d =>
    let ps := chunks.map (cardPrompt (max 1 d))
    match callsLoop model ps with
    | (Except.error _, att) => (failFlashcards, att)
    | (Except.ok rs, att) => (pyJoin "\n\n".toList rs, att)

/-- A model oracle that always answers, with response function `f`. -/
def okModel (f : Str → Str) : Str → Except Unit Str := fun p => Except.ok (f p)

/-! ### URL parsing (`extract_video_id`, `get_youtube_transcript`) -/

/-- The character class `[^&\n?#]` of both regex patterns. -/
def badChar (c : Char) : Bool := c = '&' || c = '\n' || c = '?' || c = '#'

/-- Match a literal at the head of `s`, returning the remainder. -/
def litKeep (lit s : Str) : Option Str :=
  if s.take lit.length = lit then some (s.drop lit.length) else none

/-- The capture group `([^&\n?#]+)`: greedy, at least one character. -/
def group1 (rest : Str) : Option Str :=
  let g := rest.takeWhile (fun c => !badChar c)
  if g = [] then none else some g

/-- Pattern 1 tried at one position: the alternation
`youtube\.com\/watch\?v=|youtu\.be\/|youtube\.com\/embed\/` followed by
the capture group, alternatives in source order. -/
def matchP1At (s : Str) : Option Str :=
  (litKeep "youtube.com/watch?v=".toList s).bind group1
    <|> (litKeep "youtu.be/".toList s).bind group1
    <|> (litKeep "youtube.com/embed/".toList s).bind group1

/-- Literal `v=` and the capture group, tried with `.*` consuming exactly `j` characters. -/
def vEqAt (rest : Str) (j : Nat) : Option Str :=
  (litKeep "v=".toList (rest.drop j)).bind group1

/-- Greedy backtracking for `.*v=([^&\n?#]+)`: try the longest `.*` first. -/
def vEqDown (rest : Str) : Nat → Option Str
  | 0 => vEqAt rest 0
  | j + 1 => vEqAt rest (j + 1) <|> vEqDown rest j

/-- Pattern 2 tried at one position: `youtube\.com\/watch\?` then greedy
`.*` (which cannot cross a newline) then `v=` and the capture group. -/
def matchP2At (s : Str) : Option Str :=
  (litKeep "youtube.com/watch?".toList s).bind fun rest =>
    vEqDown rest (rest.takeWhile (fun c => c ≠ '\n')).length

/-- Model of `re.search`: try a position matcher at every start position, leftmost
first. -/
def searchAt (m : Str → Option Str) : Str → Option Str
  | [] => m []
  | c :: cs => m (c :: cs) <|> searchAt m cs

/-- Model of `AILearningAssistant.extract_video_id` (src/app.py lines 436-447):
search pattern 1 over the whole URL, then pattern 2; `None` when neither
matches anywhere. -/
def extract_video_id (url : Str) : Option Str :=
  searchAt matchP1At url <|> searchAt matchP2At url

/-- Model of `AILearningAssistant.get_youtube_transcript` (src/app.py lines
449-468), against a transcript-fetch oracle.  Result components: the
returned transcript, whether the external fetch was invoked, and whether
an error message was reported. -/
def get_youtube_transcript (fetch : Str → Except Unit (List Str)) (video_url : Str) :
    Option Str × Bool × Bool :=
  match extract_video_id video_url with
  | none => (none, false, true)
  | some vid =>
    match fetch vid with
    | Except.error _ => (none, true, true)
    | Except.ok segs => (some (pyJoin [' '] segs), true, false)

/-! ### The chunking procedure as claim C3 words it -/

/-- The chunking loop exactly as claim C3 describes it: append the word
when `current_length + len(word) + 1 <= max_chars`, otherwise join and
emit the accumulated words and restart the accumulation with that word;
flush the final non-empty accumulation.  (No special case for an empty
accumulation.) -/
def greedyLoopC3 (maxc : Nat) : List Str → List Str → Nat → List Str
  | [], cur, _ => if cur = [] then [] else [pyJoin [' '] cur]
  | w :: ws, cur, n =>
    if n + (w.length + 1) ≤ maxc then greedyLoopC3 maxc ws (cur ++ [w]) (n + (w.length + 1))
    else pyJoin [' '] cur :: greedyLoopC3 maxc ws [w] (w.length + 1)

/-- Claim C3's description of `chunk_text` on long input. -/
def chunkSpecC3 (text : Str) (maxc : Nat) : List Str :=
  greedyLoopC3 maxc (pySplit text) [] 0

/-- The amended description: as claim C3, plus the empty-accumulation
case — when the word does not fit and the accumulation is empty, the
word's first `max_chars` characters are emitted as a chunk and the
word's remainder (empty when the word's length is at most `max_chars`)
becomes the new accumulation, with `current_length` set to the
remainder's length. -/
def greedyLoopC3Amended (maxc : Nat) : List Str → List Str → Nat → List Str
  | [], cur, _ => if cur = [] then [] else [pyJoin [' '] cur]
  | w :: ws, cur, n =>
    if n + (w.length + 1) ≤ maxc then
      greedyLoopC3Amended maxc ws (cur ++ [w]) (n + (w.length + 1))
    else if cur ≠ [] then
      pyJoin [' '] cur :: greedyLoopC3Amended maxc ws [w] (w.length + 1)
    else
      w.take maxc
        :: greedyLoopC3Amended maxc ws
            (if maxc < w.length then [w.drop maxc] else []) (w.drop maxc).length

/-- The amended claim C3's description of `chunk_text` on long input. -/
def chunkSpecC3Amended (text : Str) (maxc : Nat) : List Str :=
  greedyLoopC3Amended maxc (pySplit text) [] 0

/-! ### Helper lemmas about `pyJoin` and `chunkLoop` -/

theorem pyJoin_ne_nil (sep : Str) :
    ∀ (x : Str) (xs : List Str), x ≠ [] → pyJoin sep (x :: xs) ≠ []
  | x, [], h => by simpa [pyJoin] using h
  | x, y :: ys, h => by
    obtain ⟨c, cs, rfl⟩ := List.exists_cons_of_ne_nil h
    simp [pyJoin]

theorem pyJoin_append_last (sep w : Str) :
    ∀ xs : List Str, xs ≠ [] → pyJoin sep (xs ++ [w]) = pyJoin sep xs ++ sep ++ w
  | [], h => absurd rfl h
  | [x], _ => by simp [pyJoin]
  | x :: y :: ys, _ => by
    have ih := pyJoin_append_last sep w (y :: ys) (by simp)
    show x ++ sep ++ pyJoin sep ((y :: ys) ++ [w]) = (x ++ sep ++ pyJoin sep (y :: ys)) ++ sep ++ w
    rw [ih]
    simp [List.append_assoc]

theorem chunkLoop_bound (maxc : Nat) :
    ∀ (ws cur : List Str) (n : Nat),
      (∀ w ∈ ws, w.length ≤ maxc) →
      (pyJoin [' '] cur).length ≤ n →
      (cur ≠ [] → (pyJoin [' '] cur).length ≤ maxc) →
      ∀ c ∈ chunkLoop maxc ws cur n, c.length ≤ maxc
  | [], cur, n, _, _, hb => by
    by_cases h : cur = []
    · simp [chunkLoop, h]
    · intro c hc
      rw [chunkLoop, if_neg h] at hc
      rcases List.mem_singleton.mp hc with rfl
      exact hb h
  | w :: ws, cur, n, hws, hj, hb => by
    have hw : w.length ≤ maxc := hws w (by simp)
    have hws' : ∀ v ∈ ws, v.length ≤ maxc := fun v hv => hws v (by simp [hv])
    by_cases hcond : n + (w.length + 1) > maxc
    · rw [chunkLoop, if_pos hcond]
      by_cases hcur : cur = []
      · rw [if_neg (by simp [hcur])]
        have hlen : ¬ w.length > maxc := by omega
        rw [if_neg hlen]
        intro c hc
        rcases List.mem_cons.mp hc with rfl | hc
        · have := List.length_take maxc w
          omega
        · exact chunkLoop_bound maxc ws [] 0 hws' (by simp [pyJoin])
            (fun h => absurd rfl h) c hc
      · rw [if_pos hcur]
        intro c hc
        rcases List.mem_cons.mp hc with rfl | hc
        · exact hb hcur
        · refine chunkLoop_bound maxc ws [w] (w.length + 1) hws' ?_ ?_ c hc
          · simp [pyJoin]
          · intro _
            simpa [pyJoin] using hw
    · rw [chunkLoop, if_neg hcond]
      have hfit : n + (w.length + 1) ≤ maxc := by omega
      have hnew : (pyJoin [' '] (cur ++ [w])).length ≤ n + (w.length + 1) := by
        by_cases hcur : cur = []
        · subst hcur
          simp [pyJoin]
          omega
        · rw [pyJoin_append_last [' '] w cur hcur]
          simp only [List.length_append, List.length_cons, List.length_nil]
          omega
      refine chunkLoop_bound maxc ws (cur ++ [w]) (n + (w.length + 1)) hws' hnew ?_
      intro _
      omega

theorem chunkLoop_flatten (maxc : Nat) :
    ∀ (ws cur : List Str) (n : Nat),
      (∀ w ∈ ws, w ≠ [] ∧ (∀ c ∈ w, isSpace c = false) ∧ w.length ≤ maxc) →
      (∀ w ∈ cur, w ≠ [] ∧ ∀ c ∈ w, isSpace c = false) →
      ((chunkLoop maxc ws cur n).map pySplit).flatten = cur ++ ws
  | [], cur, n, _, hcur => by
    by_cases h : cur = []
    · simp [chunkLoop, h]
    · rw [chunkLoop, if_neg h]
      simp only [List.map_cons, List.map_nil, List.flatten_cons, List.flatten_nil]
      rw [pySplit_pyJoin cur hcur]
  | w :: ws, cur, n, hws, hcur => by
    have hw := hws w (by simp)
    have hws' : ∀ v ∈ ws, v ≠ [] ∧ (∀ c ∈ v, isSpace c = false) ∧ v.length ≤ maxc :=
      fun v hv => hws v (by simp [hv])
    by_cases hcond : n + (w.length + 1) > maxc
    · rw [chunkLoop, if_pos hcond]
      by_cases hc : cur = []
      · rw [if_neg (by simp [hc])]
        have hlen : ¬ w.length > maxc := by omega
        rw [if_neg hlen]
        have htake : w.take maxc = w := List.take_of_length_le (by omega)
        simp only [List.map_cons, List.flatten_cons, htake]
        rw [pySplit_single w hw.1 hw.2.1,
          chunkLoop_flatten maxc ws [] 0 hws' (by simp)]
        simp [hc]
      · rw [if_pos hc]
        simp only [List.map_cons, List.flatten_cons]
        rw [pySplit_pyJoin cur hcur,
          chunkLoop_flatten maxc ws [w] (w.length + 1) hws'
            (by intro v hv; rcases List.mem_singleton.mp hv with rfl; exact ⟨hw.1, hw.2.1⟩)]
        simp
    · rw [chunkLoop, if_neg hcond]
      rw [chunkLoop_flatten maxc ws (cur ++ [w]) (n + (w.length + 1)) hws' ?_]
      · simp
      · intro v hv
        rcases List.mem_append.mp hv with hv | hv
        · exact hcur v hv
        · rcases List.mem_singleton.mp hv with rfl
          exact ⟨hw.1, hw.2.1⟩

theorem chunkLoop_ne_nil (maxc : Nat) (hpos : 0 < maxc) :
    ∀ (ws cur : List Str) (n : Nat),
      (∀ w ∈ ws, w ≠ []) → (∀ w ∈ cur, w ≠ []) →
      ∀ c ∈ chunkLoop maxc ws cur n, c ≠ []
  | [], cur, n, _, hcur => by
    by_cases h : cur = []
    · simp [chunkLoop, h]
    · intro c hc
      rw [chunkLoop, if_neg h] at hc
      rcases List.mem_singleton.mp hc with rfl
      obtain ⟨x, xs, rfl⟩ := List.exists_cons_of_ne_nil h
      exact pyJoin_ne_nil [' '] x xs (hcur x (by simp))
  | w :: ws, cur, n, hws, hcur => by
    have hw : w ≠ [] := hws w (by simp)
    have hws' : ∀ v ∈ ws, v ≠ [] := fun v hv => hws v (by simp [hv])
    by_cases hcond : n + (w.length + 1) > maxc
    · rw [chunkLoop, if_pos hcond]
      by_cases hc : cur = []
      · rw [if_neg (by simp [hc])]
        have htake : w.take maxc ≠ [] := by
          have h1 : 0 < w.length := List.length_pos.mpr hw
          have := List.length_take maxc w
          intro hnil
          rw [hnil] at this
          simp at this
          omega
        by_cases hlen : w.length > maxc
        · rw [if_pos hlen]
          intro c hc2
          rcases List.mem_cons.mp hc2 with rfl | hc2
          · exact htake
          · refine chunkLoop_ne_nil maxc hpos ws [w.drop maxc] _ hws' ?_ c hc2
            intro v hv
            rcases List.mem_singleton.mp hv with rfl
            have := List.length_drop maxc w
            intro hnil
            rw [hnil] at this
            simp at this
            omega
        · rw [if_neg hlen]
          intro c hc2
          rcases List.mem_cons.mp hc2 with rfl | hc2
          · exact htake
          · exact chunkLoop_ne_nil maxc hpos ws [] 0 hws' (by simp) c hc2
      · rw [if_pos hc]
        intro c hc2
        rcases List.mem_cons.mp hc2 with rfl | hc2
        · obtain ⟨x, xs, rfl⟩ := List.exists_cons_of_ne_nil hc
          exact pyJoin_ne_nil [' '] x xs (hcur x (by simp))
        · refine chunkLoop_ne_nil maxc hpos ws [w] _ hws' ?_ c hc2
          intro v hv
          rcases List.mem_singleton.mp hv with rfl
          exact hw
    · rw [chunkLoop, if_neg hcond]
      refine chunkLoop_ne_nil maxc hpos ws (cur ++ [w]) _ hws' ?_
      intro v hv
      rcases List.mem_append.mp hv with hv | hv
      · exact hcur v hv
      · rcases List.mem_singleton.mp hv with rfl
        exact hw

/-! ### Claims C1-C5: the chunker -/

/-- Claim C1 counterexample: with `max_chars = 5`, the single word
`"bbbbbbbb"` is truncated into the chunks `"bbbbb"` and `"bbb"`, so
joining the chunks with single spaces and re-splitting yields two words
where the original text had one: the word sequence is not preserved. -/
theorem chunk_words_counterexample :
    ¬ pySplit (pyJoin [' '] (chunk_text "bbbbbbbb".toList 5))
        = pySplit "bbbbbbbb".toList := by decide

/-- Claim C1 (amended): joining the chunks of `chunk_text text max_chars`
with single spaces and re-splitting on whitespace reproduces the word
sequence of the original text, provided every whitespace-delimited word
of the text has length at most `max_chars` (so the truncation branch,
which splits a word across chunks, is never taken). -/
theorem chunk_text_preserves_words (text : Str) (max_chars : Nat)
    (hpos : 0 < max_chars)
    (hw : ∀ w ∈ pySplit text, w.length ≤ max_chars) :
    pySplit (pyJoin [' '] (chunk_text text max_chars)) = pySplit text := by
  rw [chunk_text]
  by_cases hlen : text.length ≤ max_chars
  · rw [if_pos hlen]
    simp [pyJoin]
  · rw [if_neg hlen, pySplit_pyJoin_map]
    have h := chunkLoop_flatten max_chars (pySplit text) [] 0
      (fun w hmem =>
        ⟨(pySplit_words text w hmem).1, (pySplit_words text w hmem).2, hw w hmem⟩)
      (by simp)
    simpa using h

/-- Claim C1 witness: a concrete instance of the amended theorem. -/
theorem chunk_text_preserves_words_witness :
    (0 < 4 ∧ ∀ w ∈ pySplit "aa bb cc".toList, w.length ≤ 4) ∧
      pySplit (pyJoin [' '] (chunk_text "aa bb cc".toList 4))
        = pySplit "aa bb cc".toList :=
  ⟨⟨by decide, by decide⟩,
    chunk_text_preserves_words "aa bb cc".toList 4 (by decide) (by decide)⟩

/-- Claim C2 counterexample: with `max_chars = 5`, the input
`"aa bbbbbbbb"` produces the chunk `"bbbbbbbb"` of length 8 > 5.  The
truncation branch only runs when the oversized word arrives while the
accumulation is empty; here it arrives after `"aa"` was accumulated, so
it is emitted whole. -/
theorem chunk_bound_counterexample :
    ¬ ∀ c ∈ chunk_text "aa bbbbbbbb".toList 5, c.length ≤ 5 := by decide

/-- Claim C2 (amended): every chunk of `chunk_text text max_chars` has
length at most `max_chars`, provided every whitespace-delimited word of
the text has length at most `max_chars`.  (Without that proviso an
oversized word reached while the accumulation is non-empty is emitted
as a chunk longer than the bound.) -/
theorem chunk_text_length_bound (text : Str) (max_chars : Nat)
    (hpos : 0 < max_chars)
    (hw : ∀ w ∈ pySplit text, w.length ≤ max_chars) :
    ∀ c ∈ chunk_text text max_chars, c.length ≤ max_chars := by
  rw [chunk_text]
  by_cases hlen : text.length ≤ max_chars
  · rw [if_pos hlen]
    intro c hc
    rcases List.mem_singleton.mp hc with rfl
    exact hlen
  · rw [if_neg hlen]
    exact chunkLoop_bound max_chars (pySplit text) [] 0 hw (by simp [pyJoin])
      (fun h => absurd rfl h)

/-- Claim C2 witness: a concrete instance of the amended theorem. -/
theorem chunk_text_length_bound_witness :
    (0 < 4 ∧ ∀ w ∈ pySplit "aa bb".toList, w.length ≤ 4) ∧
      ∀ c ∈ chunk_text "aa bb".toList 4, c.length ≤ 4 :=
  ⟨⟨by decide, by decide⟩,
    chunk_text_length_bound "aa bb".toList 4 (by decide) (by decide)⟩

/-- Claim C3 counterexample: on `"bbbbbbbb"` with `max_chars = 5` (text
longer than the bound), the loop as worded by the claim — which always
joins and emits the accumulated words on overflow — differs from
`chunk_text`, because the code handles an overflow with an empty
accumulation by truncating the word instead. -/
theorem chunk_greedy_spec_counterexample :
    5 < "bbbbbbbb".toList.length ∧
      chunk_text "bbbbbbbb".toList 5 ≠ chunkSpecC3 "bbbbbbbb".toList 5 := by decide

theorem chunkLoop_eq_amended (maxc : Nat) :
    ∀ (ws cur : List Str) (n : Nat),
      chunkLoop maxc ws cur n = greedyLoopC3Amended maxc ws cur n
  | [], cur, n => rfl
  | w :: ws, cur, n => by
    by_cases hcond : n + (w.length + 1) > maxc
    · have hle : ¬ n + (w.length + 1) ≤ maxc := by omega
      by_cases hcur : cur = []
      · subst hcur
        by_cases hlen : w.length > maxc
        · simp [chunkLoop, greedyLoopC3Amended, hcond, hle, hlen,
            chunkLoop_eq_amended maxc ws]
        · have h0 : (w.drop maxc).length = 0 := by
            have := List.length_drop maxc w
            omega
          simp [chunkLoop, greedyLoopC3Amended, hcond, hle, hlen, h0,
            chunkLoop_eq_amended maxc ws]
      · simp [chunkLoop, greedyLoopC3Amended, hcond, hle, hcur,
          chunkLoop_eq_amended maxc ws]
    · have hle : n + (w.length + 1) ≤ maxc := by omega
      simp [chunkLoop, greedyLoopC3Amended, hcond, hle,
        chunkLoop_eq_amended maxc ws]

/-- Claim C3 (amended): for text longer than `max_chars`, `chunk_text`
follows the claim's greedy word loop amended with the empty-accumulation
case: on overflow with a non-empty accumulation the accumulated words are
joined and emitted and accumulation restarts with the word; on overflow
with an empty accumulation the word's first `max_chars` characters are
emitted and the remainder (possibly empty) becomes the accumulation; the
final non-empty accumulation is flushed. -/
theorem chunk_text_eq_greedy_amended (text : Str) (max_chars : Nat)
    (h : max_chars < text.length) :
    chunk_text text max_chars = chunkSpecC3Amended text max_chars := by
  rw [chunk_text, if_neg (by omega), chunkSpecC3Amended]
  exact chunkLoop_eq_amended max_chars (pySplit text) [] 0

/-- Claim C3 witness: a concrete instance of the amended theorem. -/
theorem chunk_text_eq_greedy_amended_witness :
    5 < "aa bbbbbbbb c".toList.length ∧
      chunk_text "aa bbbbbbbb c".toList 5 = chunkSpecC3Amended "aa bbbbbbbb c".toList 5 :=
  ⟨by decide, chunk_text_eq_greedy_amended "aa bbbbbbbb c".toList 5 (by decide)⟩

/-- Claim C4 (confirmed): when `len(text) <= max_chars`, `chunk_text`
returns exactly the one-element list holding the unchanged input text
(src/app.py lines 472-473). -/
theorem chunk_text_short_identity (text : Str) (max_chars : Nat)
    (h : text.length ≤ max_chars) : chunk_text text max_chars = [text] := by
  rw [chunk_text, if_pos h]

/-- Claim C4 witness. -/
theorem chunk_text_short_identity_witness :
    "hello world".toList.length ≤ 30000 ∧
      chunk_text "hello world".toList 30000 = ["hello world".toList] :=
  ⟨by decide, chunk_text_short_identity "hello world".toList 30000 (by decide)⟩

/-- Claim C5 counterexample: the empty text has length `0 <= max_chars`,
so `chunk_text` returns `[""]` — a sequence whose only element is the
empty string. -/
theorem chunk_nonempty_counterexample :
    ¬ ∀ c ∈ chunk_text ([] : Str) 1, c ≠ [] := by decide

/-- Claim C5 (amended): no element of `chunk_text text max_chars` is the
empty string, provided the text itself is non-empty (the empty text is
returned unchanged as the single chunk `""`). -/
theorem chunk_text_no_empty_chunk (text : Str) (max_chars : Nat)
    (hpos : 0 < max_chars) (hne : text ≠ []) :
    ∀ c ∈ chunk_text text max_chars, c ≠ [] := by
  rw [chunk_text]
  by_cases hlen : text.length ≤ max_chars
  · rw [if_pos hlen]
    intro c hc
    rcases List.mem_singleton.mp hc with rfl
    exact hne
  · rw [if_neg hlen]
    exact chunkLoop_ne_nil max_chars hpos (pySplit text) [] 0
      (fun w hw => (pySplit_words text w hw).1) (by simp)

/-- Claim C5 witness: a concrete instance of the amended theorem. -/
theorem chunk_text_no_empty_chunk_witness :
    (0 < 2 ∧ "a bb c".toList ≠ []) ∧
      ∀ c ∈ chunk_text "a bb c".toList 2, c ≠ [] :=
  ⟨⟨by decide, by decide⟩,
    chunk_text_no_empty_chunk "a bb c".toList 2 (by decide) (by decide)⟩

/-! ### Helper lemmas about the model-call loop -/

theorem callsLoop_okModel (f : Str → Str) :
    ∀ ps : List Str, callsLoop (okModel f) ps = (Except.ok (ps.map f), ps)
  | [] => rfl
  | p :: ps => by
    simp [callsLoop, okModel, callsLoop_okModel f ps, Except.map]

theorem callsLoop_ok (model : Str → Except Unit Str) :
    ∀ (ps rs : List Str),
      (callsLoop model ps).1 = Except.ok rs → callsLoop model ps = (Except.ok rs, ps)
  | [], rs, h => by
    simp [callsLoop] at h
    subst h
    rfl
  | p :: ps, rs, h => by
    cases hm : model p with
    | error e =>
      rw [callsLoop] at h
      simp [hm] at h
    | ok r =>
      rw [callsLoop] at h
      simp only [hm] at h
      cases h1 : (callsLoop model ps).1 with
      | error e => simp [h1, Except.map] at h
      | ok rs0 =>
        have hpair := callsLoop_ok model ps rs0 h1
        rw [h1] at h
        simp [Except.map] at h
        rw [callsLoop]
        simp only [hm, hpair, h1]
        simp [Except.map, h.symm]

theorem callsLoop_error_at (model : Str → Except Unit Str) :
    ∀ (ps : List Str) (k : Nat) (p : Str),
      ps[k]? = some p →
      (∀ i q, i < k → ps[i]? = some q → model q ≠ Except.error ()) →
      model p = Except.error () →
      callsLoop model ps = (Except.error (), ps.take (k + 1))
  | [], k, p, hp, _, _ => by simp at hp
  | q :: ps, 0, p, hp, _, herr => by
    simp at hp
    subst hp
    simp [callsLoop, herr]
  | q :: ps, k + 1, p, hp, hok, herr => by
    have hq : model q ≠ Except.error () := hok 0 q (Nat.succ_pos k) (by simp)
    obtain ⟨r, hr⟩ : ∃ r, model q = Except.ok r := by
      cases hmq : model q with
      | error e => cases e; exact absurd hmq hq
      | ok r => exact ⟨r, rfl⟩
    have ih := callsLoop_error_at model ps k p (by simpa using hp)
      (fun i u hi hu => hok (i + 1) u (Nat.succ_lt_succ hi) (by simpa using hu)) herr
    simp [callsLoop, hr, ih, Except.map]

/-! ### Segment containment (for the reconciliation prompt) -/

/-- String `x` occurs contiguously inside `y`. -/
def isSubseg (x y : Str) : Prop := ∃ u v, y = u ++ x ++ v

theorem subseg_pyJoin (sep : Str) :
    ∀ (xs : List Str) (x : Str), x ∈ xs → isSubseg x (pyJoin sep xs)
  | [], x, hx => absurd hx (List.not_mem_nil x)
  | [y], x, hx => by
    rcases List.mem_singleton.mp hx with rfl
    exact ⟨[], [], by simp [pyJoin]⟩
  | y :: z :: zs, x, hx => by
    rcases List.mem_cons.mp hx with rfl | hx
    · exact ⟨[], sep ++ pyJoin sep (z :: zs), by simp [pyJoin]⟩
    · obtain ⟨u, v, huv⟩ := subseg_pyJoin sep (z :: zs) x hx
      exact ⟨y ++ sep ++ u, v, by simp [pyJoin, huv]⟩

theorem subseg_combinedPrompt (rs : List Str) (r : Str) (hr : r ∈ rs) :
    isSubseg r (combinedPrompt rs) := by
  obtain ⟨u, v, huv⟩ := subseg_pyJoin [' '] rs r hr
  refine ⟨combinedPromptPre ++ u, v ++ combinedPromptEnd, ?_⟩
  rw [combinedPrompt, huv]
  simp [List.append_assoc]

/-! ### Claims C6, C7, C9, C10: the pipeline functions -/

/-- Claim C6 (confirmed): with an always-answering model, a single-chunk
text makes `generate_summary` return that chunk's response verbatim after
exactly one model call; an `N > 1`-chunk text makes it issue exactly
`N + 1` calls — one per chunk plus the reconciliation call, whose prompt
contains every per-chunk response — and return the reconciliation call's
response. -/
theorem generate_summary_call_pattern (f : Str → Str) (ct text : Str) (maxc : Nat) :
    (∀ c, chunk_text text maxc = [c] →
        generate_summary (okModel f) ct text maxc
          = (f (summaryPrompt ct c), [summaryPrompt ct c])) ∧
    (1 < (chunk_text text maxc).length →
        generate_summary (okModel f) ct text maxc
            = (f (combinedPrompt ((chunk_text text maxc).map fun c => f (summaryPrompt ct c))),
               (chunk_text text maxc).map (summaryPrompt ct)
                 ++ [combinedPrompt ((chunk_text text maxc).map fun c => f (summaryPrompt ct c))])
          ∧ (generate_summary (okModel f) ct text maxc).2.length
              = (chunk_text text maxc).length + 1
          ∧ ∀ r ∈ (chunk_text text maxc).map fun c => f (summaryPrompt ct c),
              isSubseg r (combinedPrompt ((chunk_text text maxc).map fun c => f (summaryPrompt ct c)))) := by
  have hcl := callsLoop_okModel f ((chunk_text text maxc).map (summaryPrompt ct))
  have hmap : ((chunk_text text maxc).map (summaryPrompt ct)).map f
      = (chunk_text text maxc).map fun c => f (summaryPrompt ct c) := by
    simp [List.map_map, Function.comp]
  constructor
  · intro c hc
    simp [generate_summary, hc, callsLoop, okModel, Except.map]
  · intro hN
    have hcond : 1 < (((chunk_text text maxc).map (summaryPrompt ct)).map f).length := by
      simpa using hN
    have hmain : generate_summary (okModel f) ct text maxc
        = (f (combinedPrompt ((chunk_text text maxc).map fun c => f (summaryPrompt ct c))),
           (chunk_text text maxc).map (summaryPrompt ct)
             ++ [combinedPrompt ((chunk_text text maxc).map fun c => f (summaryPrompt ct c))]) := by
      simp only [generate_summary, hcl, hmap]
      rw [if_pos (by simpa using hN)]
      simp [okModel]
    refine ⟨hmain, ?_, ?_⟩
    · rw [hmain]
      simp
    · intro r hr
      exact subseg_combinedPrompt _ r hr

/-- Claim C6 witness: a single-chunk run and a three-chunk run. -/
theorem generate_summary_call_pattern_witness :
    (chunk_text "hi".toList 30000 = ["hi".toList] ∧
      generate_summary (okModel fun _ => "R".toList) "content".toList "hi".toList 30000
        = ("R".toList, [summaryPrompt "content".toList "hi".toList])) ∧
    (1 < (chunk_text "aa bb cc".toList 5).length ∧
      (generate_summary (okModel fun _ => "R".toList) "content".toList "aa bb cc".toList 5).2.length
        = (chunk_text "aa bb cc".toList 5).length + 1) :=
  ⟨⟨by decide,
      (generate_summary_call_pattern (fun _ => "R".toList) "content".toList "hi".toList 30000).1
        "hi".toList (by decide)⟩,
    ⟨by decide,
      ((generate_summary_call_pattern (fun _ => "R".toList) "content".toList "aa bb cc".toList 5).2
        (by decide)).2.1⟩⟩

/-- Claim C7 (confirmed): with at least one chunk, `generate_mcqs` and
`generate_flashcards` put exactly `max 1 (total / chunk_count)` requested
items into every per-chunk prompt (never fewer than one), and return the
per-chunk responses joined by a blank line, in chunk order. -/
theorem generate_counts_per_chunk (f : Str → Str) (text : Str) (n m maxc : Nat)
    (h : chunk_text text maxc ≠ []) :
    1 ≤ max 1 (n / (chunk_text text maxc).length) ∧
      generate_mcqs (okModel f) text n maxc
        = (pyJoin "\n\n".toList
              ((chunk_text text maxc).map fun c =>
                f (mcqPrompt (max 1 (n / (chunk_text text maxc).length)) c)),
           (chunk_text text maxc).map (mcqPrompt (max 1 (n / (chunk_text text maxc).length)))) ∧
      generate_flashcards (okModel f) text m maxc
        = (pyJoin "\n\n".toList
              ((chunk_text text maxc).map fun c =>
                f (cardPrompt (max 1 (m / (chunk_text text maxc).length)) c)),
           (chunk_text text maxc).map (cardPrompt (max 1 (m / (chunk_text text maxc).length)))) := by
  have hlen : (chunk_text text maxc).length ≠ 0 := by
    simpa [List.length_eq_zero] using h
  refine ⟨Nat.le_max_left 1 _, ?_, ?_⟩
  · simp [generate_mcqs, pyDiv, hlen, callsLoop_okModel, List.map_map, Function.comp_def]
  · simp [generate_flashcards, pyDiv, hlen, callsLoop_okModel, List.map_map, Function.comp_def]

/-- Claim C7 witness: three chunks with a requested total of 1 question,
so the per-chunk count is forced up to `max 1 (1 / 3) = 1`. -/
theorem generate_counts_per_chunk_witness :
    chunk_text "aa bb cc".toList 5 ≠ [] ∧
      1 ≤ max 1 (1 / (chunk_text "aa bb cc".toList 5).length) ∧
      generate_mcqs (okModel fun _ => "R".toList) "aa bb cc".toList 1 5
        = (pyJoin "\n\n".toList
              ((chunk_text "aa bb cc".toList 5).map fun _ => "R".toList),
           (chunk_text "aa bb cc".toList 5).map
             (mcqPrompt (max 1 (1 / (chunk_text "aa bb cc".toList 5).length)))) := by
  have h := generate_counts_per_chunk (fun _ => "R".toList) "aa bb cc".toList 1 12 5 (by decide)
  exact ⟨by decide, h.1, h.2.1⟩

/-- Claim C9 (confirmed): when an external model call raises, the
pipeline function catches it, returns its fixed failure placeholder, and
attempts no further call — the attempted prompts are exactly the calls
issued up to and including the failing one.  Stated for in-loop failures
of all three pipelines, and for a reconciliation-call failure of
`generate_summary`. -/
theorem model_error_no_retry (model : Str → Except Unit Str) (ct text : Str)
    (n m maxc : Nat) :
    (∀ k p, ((chunk_text text maxc).map (summaryPrompt ct))[k]? = some p →
        (∀ i q, i < k → ((chunk_text text maxc).map (summaryPrompt ct))[i]? = some q →
          model q ≠ Except.error ()) →
        model p = Except.error () →
        generate_summary model ct text maxc
          = (failSummary, ((chunk_text text maxc).map (summaryPrompt ct)).take (k + 1))) ∧
    (∀ rs, (callsLoop model ((chunk_text text maxc).map (summaryPrompt ct))).1 = Except.ok rs →
        1 < rs.length → model (combinedPrompt rs) = Except.error () →
        generate_summary model ct text maxc
          = (failSummary,
             (chunk_text text maxc).map (summaryPrompt ct) ++ [combinedPrompt rs])) ∧
    (∀ k p,
        ((chunk_text text maxc).map
          (mcqPrompt (max 1 (n / (chunk_text text maxc).length))))[k]? = some p →
        (∀ i q, i < k →
          ((chunk_text text maxc).map
            (mcqPrompt (max 1 (n / (chunk_text text maxc).length))))[i]? = some q →
          model q ≠ Except.error ()) →
        model p = Except.error () →
        generate_mcqs model text n maxc
          = (failMCQs,
             ((chunk_text text maxc).map
               (mcqPrompt (max 1 (n / (chunk_text text maxc).length)))).take (k + 1))) ∧
    (∀ k p,
        ((chunk_text text maxc).map
          (cardPrompt (max 1 (m / (chunk_text text maxc).length))))[k]? = some p →
        (∀ i q, i < k →
          ((chunk_text text maxc).map
            (cardPrompt (max 1 (m / (chunk_text text maxc).length))))[i]? = some q →
          model q ≠ Except.error ()) →
        model p = Except.error () →
        generate_flashcards model text m maxc
          = (failFlashcards,
             ((chunk_text text maxc).map
               (cardPrompt (max 1 (m / (chunk_text text maxc).length)))).take (k + 1))) := by
  refine ⟨?_, ?_, ?_, ?_⟩
  · intro k p hp hok herr
    have hcl := callsLoop_error_at model _ k p hp hok herr
    simp [generate_summary, hcl]
  · intro rs h1 hN herr
    have hpair := callsLoop_ok model _ rs h1
    simp only [generate_summary, hpair]
    rw [if_pos hN]
    simp [herr]
  · intro k p hp hok herr
    have hlen : (chunk_text text maxc).length ≠ 0 := by
      intro h0
      have : (chunk_text text maxc) = [] := List.length_eq_zero.mp h0
      simp [this] at hp
    have hcl := callsLoop_error_at model _ k p hp hok herr
    simp [generate_mcqs, pyDiv, hlen, hcl]
  · intro k p hp hok herr
    have hlen : (chunk_text text maxc).length ≠ 0 := by
      intro h0
      have : (chunk_text text maxc) = [] := List.length_eq_zero.mp h0
      simp [this] at hp
    have hcl := callsLoop_error_at model _ k p hp hok herr
    simp [generate_flashcards, pyDiv, hlen, hcl]

/-- Claim C9 witness: a model that raises on its first call makes
`generate_summary` and `generate_mcqs` return their placeholders after
exactly that one attempted call. -/
theorem model_error_no_retry_witness :
    generate_summary (fun _ => Except.error ()) "content".toList "hi".toList 30000
      = (failSummary, [summaryPrompt "content".toList "hi".toList]) ∧
    generate_mcqs (fun _ => Except.error ()) "hi".toList 8 30000
      = (failMCQs, [mcqPrompt 8 "hi".toList]) := by
  have h := model_error_no_retry (fun _ => Except.error ()) "content".toList "hi".toList
    8 12 30000
  constructor
  · have h1 := h.1 0 (summaryPrompt "content".toList "hi".toList) (by rfl)
      (fun i q hi _ => absurd hi (Nat.not_lt_zero i)) rfl
    simpa using h1
  · have h2 := h.2.2.1 0 (mcqPrompt 8 "hi".toList) (by rfl)
      (fun i q hi _ => absurd hi (Nat.not_lt_zero i)) rfl
    simpa using h2

/-- Claim C10 (confirmed): a whitespace-only text longer than the bound
splits into zero words, so `chunk_text` returns the empty list (no empty
chunk); on such input the Python `num // len(chunks)` of the MCQ and
flashcard pipelines raises `ZeroDivisionError`, and `summaries[0]` of the
summary pipeline raises `IndexError`; each is caught by the surrounding
handler, so all three functions still return their failure placeholders
(with no model call attempted). -/
theorem whitespace_only_failure (text : Str) (maxc n m : Nat)
    (model : Str → Except Unit Str) (ct : Str)
    (hsp : ∀ c ∈ text, isSpace c = true) (hlen : maxc < text.length) :
    chunk_text text maxc = [] ∧
      generate_summary model ct text maxc = (failSummary, []) ∧
      generate_mcqs model text n maxc = (failMCQs, []) ∧
      generate_flashcards model text m maxc = (failFlashcards, []) := by
  have hchunk : chunk_text text maxc = [] := by
    rw [chunk_text, if_neg (by omega), pySplit_all_space text hsp]
    simp [chunkLoop]
  refine ⟨hchunk, ?_, ?_, ?_⟩
  · simp [generate_summary, hchunk, callsLoop]
  · simp [generate_mcqs, hchunk, pyDiv]
  · simp [generate_flashcards, hchunk, pyDiv]

/-- Claim C10 witness: three spaces with bound 2. -/
theorem whitespace_only_failure_witness :
    chunk_text "   ".toList 2 = [] ∧
      generate_summary (fun _ => Except.error ()) "content".toList "   ".toList 2
        = (failSummary, []) ∧
      generate_mcqs (fun _ => Except.error ()) "   ".toList 8 2 = (failMCQs, []) ∧
      generate_flashcards (fun _ => Except.error ()) "   ".toList 12 2
        = (failFlashcards, []) :=
  whitespace_only_failure "   ".toList 2 8 12 (fun _ => Except.error ())
    "content".toList (by decide) (by decide)

/-! ### Claim C8: invalid URLs -/

theorem searchAt_eq_none (m : Str → Option Str) :
    ∀ s : Str, (∀ i, m (s.drop i) = none) → searchAt m s = none
  | [], h => by simpa using h 0
  | c :: cs, h => by
    have h0 : m (c :: cs) = none := by simpa using h 0
    rw [searchAt, h0, Option.none_orElse]
    exact searchAt_eq_none m cs (fun i => by simpa using h (i + 1))

/-- Reduce the no-match-anywhere condition to the finitely many start
positions inside the string (every position past the end sees `[]`). -/
theorem noMatch_all (m : Str → Option Str) (s : Str) (he : m [] = none)
    (hb : ∀ i, i < s.length → m (s.drop i) = none) :
    ∀ i, m (s.drop i) = none := by
  intro i
  by_cases hi : i < s.length
  · exact hb i hi
  · rw [List.drop_eq_nil_of_le (by omega)]
    exact he

/-- Claim C8 (confirmed): when neither regex pattern matches at any
position of the URL, `extract_video_id` returns `none`, and
`get_youtube_transcript` reports an error and returns `none` without
invoking the external transcript fetch (result components: transcript,
fetch-invoked flag, error-reported flag). -/
theorem invalid_url_no_fetch (fetch : Str → Except Unit (List Str)) (url : Str)
    (h1 : ∀ i, matchP1At (url.drop i) = none)
    (h2 : ∀ i, matchP2At (url.drop i) = none) :
    extract_video_id url = none ∧
      get_youtube_transcript fetch url = (none, false, true) := by
  have hs1 : searchAt matchP1At url = none := searchAt_eq_none matchP1At url h1
  have hs2 : searchAt matchP2At url = none := searchAt_eq_none matchP2At url h2
  have hvid : extract_video_id url = none := by
    rw [extract_video_id, hs1, hs2, Option.none_orElse]
  exact ⟨hvid, by rw [get_youtube_transcript, hvid]⟩

/-- Claim C8 witness: a URL that matches neither pattern. -/
theorem invalid_url_no_fetch_witness :
    extract_video_id "https://vimeo.com/123".toList = none ∧
      get_youtube_transcript (fun _ => Except.error ())
        "https://vimeo.com/123".toList = (none, false, true) :=
  invalid_url_no_fetch (fun _ => Except.error ()) "https://vimeo.com/123".toList
    (noMatch_all matchP1At "https://vimeo.com/123".toList (by decide) (by decide))
    (noMatch_all matchP2At "https://vimeo.com/123".toList (by decide) (by decide))
